import Mathlib

/-
Verification development for the release-artifact organizer
(full_final_script.py / full_local_script.py).

The Python code is shallowly embedded: JSON manifests become Lean
structures whose field lists mirror the template key order, Python dicts
become association lists with insertion-order-preserving update
(`dinsert`), the filesystem tree becomes an inductive tree carrying each
directory's name, its plain-file listing (in the fixed scan order) and
the optional content of its `meta.json`, and fallible operations return
`Except String`.
-/

namespace MetaRelease

/-- Version record produced by the `N.N.N.N` extractor
(`full_final_script.py` lines 167-190 and `full_local_script.py`
lines 79-103). -/
structure VersionInfo where
  versionCompact : String
  versionFull : String
  versionFamily : Nat
  versionMajor : Nat
  versionMinor : Nat
  versionPatch : Nat
deriving DecidableEq, Repr

/-- One entry of a manifest's `metaTargets` list. -/
structure MetaTarget where
  targetName : String
  metaInformationFile : String
deriving DecidableEq, Repr

/-- A `meta.json` document, with the fields of `META_TEMPLATE`
(`full_final_script.py` lines 12-18). `versionInfo` is `none` when the
JSON object is `{}` (the template value). -/
structure MetaJson where
  selfName : String
  selfDirName : String
  metaTargets : List MetaTarget
  files : List (String × String)
  versionInfo : Option VersionInfo
deriving DecidableEq, Repr

/-- `META_TEMPLATE` of `full_final_script.py`. -/
def metaTemplate : MetaJson :=
  { selfName := "meta.json"
    selfDirName := ""
    metaTargets := []
    files := []
    versionInfo := none }

/-- Python-dict assignment `d[k] = v` on an association list: an existing
key keeps its position and gets the new value, a fresh key is appended. -/
def dinsert {α : Type} : List (String × α) → String → α → List (String × α)
  | [], k, v => [(k, v)]
  | (k', v') :: rest, k, v =>
      if k' = k then (k', v) :: rest else (k', v') :: dinsert rest k v

/-- Python `s.startswith(pre)` on the character lists of the strings. -/
def pyStartsWith (s pre : String) : Bool :=
  List.isPrefixOf pre.toList s.toList

/-- Python `s.endswith(suf)` on the character lists of the strings. -/
def pyEndsWith (s suf : String) : Bool :=
  List.isSuffixOf suf.toList s.toList

/-- Numeric value of a digit string, as computed by Python `int(group)`
(leading zeros stripped). -/
def natOfDigits (ds : List Char) : Nat :=
  ds.foldl (fun n c => n * 10 + (c.toNat - Char.toNat '0')) 0

/-- Maximal digit prefix of a character list, with the remainder:
the greedy behaviour of one `\d+` atom. -/
def takeDigits : List Char → List Char × List Char
  | [] => ([], [])
  | c :: rest =>
      if c.isDigit then
        let p := takeDigits rest
        (c :: p.1, p.2)
      else ([], c :: rest)

/-- Attempt to match `(\d+)\.(\d+)\.(\d+)\.(\d+)` at the head of the
character list, returning the four digit groups.  Each `\d+` is greedy;
for this pattern greedy matching never needs backtracking because a
digit run can only be followed by the literal dot. -/
def matchVersionAt (s : List Char) : Option (List Char × List Char × List Char × List Char) :=
  let p1 := takeDigits s
  if p1.1 = [] then none else
  match p1.2 with
  | '.' :: r1 =>
      let p2 := takeDigits r1
      if p2.1 = [] then none else
      match p2.2 with
      | '.' :: r2 =>
          let p3 := takeDigits r2
          if p3.1 = [] then none else
          match p3.2 with
          | '.' :: r3 =>
              let p4 := takeDigits r3
              if p4.1 = [] then none else some (p1.1, p2.1, p3.1, p4.1)
          | _ => none
      | _ => none
  | _ => none

/-- Leftmost match of the version pattern: Python
`re.search(r"(\d+)\.(\d+)\.(\d+)\.(\d+)", s)` tried at each start
position from the left. -/
def searchVersion : List Char → Option (List Char × List Char × List Char × List Char)
  | [] => none
  | c :: rest =>
      match matchVersionAt (c :: rest) with
      | some g => some g
      | none => searchVersion rest

/-- Version record for a filename: `none` when `re.search` finds no
match, otherwise the record built in `full_final_script.py`
lines 170-190 (`versionCompact` joins the groups through `int`,
`versionFull` is the verbatim matched substring `match.group(0)`). -/
def extractVersion (file : String) : Option VersionInfo :=
  (searchVersion file.toList).map (fun g =>
    { versionCompact :=
        toString (natOfDigits g.1) ++ "." ++ toString (natOfDigits g.2.1) ++ "." ++
          toString (natOfDigits g.2.2.1) ++ "." ++ toString (natOfDigits g.2.2.2)
      versionFull :=
        String.mk (g.1 ++ '.' :: g.2.1 ++ '.' :: g.2.2.1 ++ '.' :: g.2.2.2)
      versionFamily := natOfDigits g.1
      versionMajor := natOfDigits g.2.1
      versionMinor := natOfDigits g.2.2.1
      versionPatch := natOfDigits g.2.2.2 })

/-- Version scan of `create_meta_files_all` (`full_final_script.py`
lines 167-190): the loop over the directory listing has no `break`, so
every matching filename overwrites `versionInfo` in turn. -/
def scanVersion : List String → Option VersionInfo → Option VersionInfo
  | [], v0 => v0
  | f :: rest, v0 =>
      scanVersion rest
        (match extractVersion f with
         | some v => some v
         | none => v0)

/-- The version carried by the last filename of the listing that matches
the pattern, if any: the value `scanVersion` leaves behind. -/
def lastVer : List String → Option VersionInfo
  | [] => none
  | f :: rest =>
      match lastVer rest with
      | some v => some v
      | none => extractVersion f

/-- Version scan of `create_meta_json` (`full_local_script.py`
lines 79-103): non-`.hex` files are passed over, and the `break` sits
inside the `.hex` branch, so the scan stops at the first `.hex` file
whether or not it matches the version pattern. -/
def scanVersionHex : List String → Option VersionInfo
  | [] => none
  | f :: rest =>
      if pyEndsWith f ".hex" then extractVersion f else scanVersionHex rest

/-- Body of the `os.walk` loop of `create_meta_files_all`
(`full_final_script.py` lines 151-192) for one directory.

`name` is the directory basename, `files` its listing of plain files in
the fixed scan order (the document `meta.json` itself is factored out:
the source test `"meta.json" not in files` is exactly `manifest = none`
here, since a directory's listing contains `meta.json` iff the manifest
document exists; the name `meta.json` can match neither the version
pattern nor `buildInfo.json`, so leaving it out of `files` changes
nothing else).  `manifest` is the pre-existing `meta.json` content and
`childNames` the subdirectory names in scan order.  The source guard
`"files" not in meta_json` is always false for documents of the modelled
schema, whose `files` key is present. -/
def metaFilesAllDir (name : String) (files : List String)
    (manifest : Option MetaJson) (childNames : List String) : MetaJson :=
  let m0 := manifest.getD metaTemplate
  let m1 :=
    match manifest with
    | some _ => m0
    | none =>
        { m0 with
            selfDirName := name
            metaTargets := childNames.map (fun d =>
              { targetName := d, metaInformationFile := d ++ "/meta.json" }) }
  let m2 :=
    if "buildInfo.json" ∈ files then
      { m1 with files := dinsert m1.files "buildInfo" "buildInfo.json" }
    else m1
  { m2 with versionInfo := scanVersion files m2.versionInfo }

/-- `update_meta_json` (`full_final_script.py` lines 94-107) with the
`json_path` argument instantiated to `"files"`, the path used by the
build pipeline.  `manifest` is the document at `file_path` (`none` when
absent, in which case the template is seeded) and `dirBase` is
`os.path.basename(os.path.dirname(file_path))`. -/
def update_meta_json (manifest : Option MetaJson) (dirBase key value : String) : MetaJson :=
  let m0 := manifest.getD metaTemplate
  let m1 := if m0.selfDirName = "" then { m0 with selfDirName := dirBase } else m0
  { m1 with files := dinsert m1.files key value }

mutual
/-- A directory: its basename, its plain-file listing in the fixed scan
order (excluding `meta.json`, see `metaFilesAllDir`), the content of its
`meta.json` when that document exists, and its subdirectories in scan
order. -/
inductive FsTree where
  | node : String → List String → Option MetaJson → FsForest → FsTree
/-- The ordered subdirectories of a directory. -/
inductive FsForest where
  | nil : FsForest
  | cons : FsTree → FsForest → FsForest
end

/-- Basename of a directory. -/
def treeName : FsTree → String
  | .node n _ _ _ => n

/-- The subdirectory names `dirs` that `os.walk` reports for a directory. -/
def forestNames : FsForest → List String
  | .nil => []
  | .cons t ts => treeName t :: forestNames ts

mutual
/-- Top-down `os.walk` of `create_meta_files_all`: every directory gets
the manifest computed by `metaFilesAllDir`, written to disk (hence
`some` in the result tree). -/
def walkTree : FsTree → FsTree
  | .node n fs m cs =>
      .node n fs (some (metaFilesAllDir n fs m (forestNames cs))) (walkForest cs)
/-- `walkTree` on every subdirectory, in order. -/
def walkForest : FsForest → FsForest
  | .nil => .nil
  | .cons t ts => .cons (walkTree t) (walkForest ts)
end

/-- Effect of `generate_build_info_file` on the root directory listing:
`_load_json_file` creates `buildInfo.json` when absent (new names appear
at the end of the modelled listing); the document content is a function
of the environment only and is not read back by the tree walk. -/
def ensureBuildInfo (files : List String) : List String :=
  if "buildInfo.json" ∈ files then files else files ++ ["buildInfo.json"]

/-- `create_meta_files_all` (`full_final_script.py` lines 142-192):
synthesize `buildInfo.json` at the root, then walk the whole tree. -/
def create_meta_files_all : FsTree → FsTree
  | .node n fs m cs => walkTree (.node n (ensureBuildInfo fs) m cs)

/-- Body of the `os.walk` loop of `create_meta_json`
(`full_local_script.py` lines 70-118) for one directory: the manifest is
rebuilt from scratch — the pre-existing document is never read — with
`selfDirName` the basename, `metaTargets` one entry per subdirectory,
`files` enumerating every non-`meta.json` file as `files[name] = name`,
and `versionInfo` from the `.hex`-restricted scan. -/
def createMetaJsonDir (name : String) (files : List String)
    (childNames : List String) : MetaJson :=
  { selfName := "meta.json"
    selfDirName := name
    metaTargets := childNames.map (fun d =>
      { targetName := d, metaInformationFile := d ++ "/meta.json" })
    files := (files.filter (fun f => f ≠ "meta.json")).map (fun f => (f, f))
    versionInfo := scanVersionHex files }

mutual
/-- Tree walk of `create_meta_json`: every directory's manifest is
replaced by the rebuilt document. -/
def cmjTree : FsTree → FsTree
  | .node n fs _ cs =>
      .node n fs (some (createMetaJsonDir n fs (forestNames cs))) (cmjForest cs)
/-- `cmjTree` on every subdirectory, in order. -/
def cmjForest : FsForest → FsForest
  | .nil => .nil
  | .cons t ts => .cons (cmjTree t) (cmjForest ts)
end

/-- A subfolder node of the routing specification: its optional
`"files"` mapping from logical key to regex pattern, in key order. -/
structure SubNode where
  files : Option (List (String × String))
deriving DecidableEq, Repr

/-- A top-level folder node of the routing specification: its optional
`"files"` mapping and its subfolder keys in iteration order.  The
reserved `"files"` key of the JSON object is factored into the `files`
field; `move_files` always tests a node's own patterns before its
subfolder keys, so the relative position of `"files"` among the
subfolder keys is immaterial. -/
structure FolderNode where
  files : Option (List (String × String))
  subs : List (String × SubNode)
deriving DecidableEq, Repr

/-- The routing specification: top-level keys in iteration order. -/
abbrev RSpec : Type := List (String × FolderNode)

/-- Subfolder-creation loop of `create_folders` (`full_local_script.py`
lines 34-38), run for the just-created top-level `folder`: each
subfolder key other than `"files"` is created when absent.  The
filesystem is the list of existing directory paths (component lists);
`os.makedirs` appends the new path. -/
def createSubs (folder : String) : List (String × SubNode) → List (List String) → List (List String)
  | [], fs => fs
  | (sub, _) :: rest, fs =>
      if sub = "files" then createSubs folder rest fs
      else if [folder, sub] ∈ fs then createSubs folder rest fs
      else createSubs folder rest (fs ++ [[folder, sub]])

/-- `create_folders` (`full_local_script.py` lines 24-38): for each
top-level key other than `"files"`, when the directory does not exist it
is created and its subfolders are processed; when it already exists the
whole body — including the subfolder loop, which sits inside the
`not os.path.exists(folder)` branch — is skipped. -/
def create_folders : RSpec → List (List String) → List (List String)
  | [], fs => fs
  | (folder, node) :: rest, fs =>
      if folder = "files" then create_folders rest fs
      else if [folder] ∈ fs then create_folders rest fs
      else create_folders rest (createSubs folder node.subs (fs ++ [[folder]]))

/-- One token of a compiled pattern: the atom (a literal character, or
`none` for `.`) and whether it carries a `*`. -/
def parseRx : List Char → List (Option Char × Bool)
  | [] => []
  | c :: '*' :: rest => ((if c = '.' then none else some c), true) :: parseRx rest
  | c :: rest => ((if c = '.' then none else some c), false) :: parseRx rest

/-- Whether an atom accepts a character. -/
def atomAccepts (a : Option Char) (c : Char) : Bool :=
  match a with
  | none => true
  | some c' => c' = c

/-- Backtracking matcher for the compiled pattern against a prefix of
the subject (the pattern need not exhaust the subject, as with Python
`re.match`).  Every step consumes a pattern token or a subject
character, so fuel `tokens + characters + 1` always suffices; the fuel
only makes the recursion structural. -/
def rxAccepts : Nat → List (Option Char × Bool) → List Char → Bool
  | 0, _, _ => false
  | _ + 1, [], _ => true
  | fuel + 1, (a, false) :: ps, cs =>
      match cs with
      | [] => false
      | c :: cs' => atomAccepts a c && rxAccepts fuel ps cs'
  | fuel + 1, (a, true) :: ps, cs =>
      rxAccepts fuel ps cs ||
        (match cs with
         | [] => false
         | c :: cs' => atomAccepts a c && rxAccepts fuel ((a, true) :: ps) cs')

/-- Python `re.match(pattern, s)` as a Boolean, for the pattern subset
the routing specifications of this development use: literal characters,
`.`, postfix `*`, and an optional leading `^` (redundant under
`re.match`, which anchors at the start). -/
def pyMatch (pattern s : String) : Bool :=
  let p :=
    match pattern.toList with
    | '^' :: rest => rest
    | other => other
  let toks := parseRx p
  rxAccepts (toks.length + s.toList.length + 1) toks s.toList

/-- Result of one `os.rename(file, dest)` from `move_files`: the source
path is always the bare original filename in the working directory, so
the rename succeeds only while the file has not been moved yet;
afterwards the source path no longer exists and Python raises
`FileNotFoundError`. -/
def tryRename (dest : List String) : Option (List String) → Except String (Option (List String))
  | none => .ok (some dest)
  | some _ => .error "FileNotFoundError"

/-- Pattern loop of `move_files` over one `"files"` mapping
(`full_local_script.py` lines 51-53 and 56-60): every pattern is tested
— there is no `break` after a match — and each match triggers a rename
into `dest`. -/
def applyPatterns (rmatch : String → String → Bool) (file : String) (dest : List String) :
    List (String × String) → Option (List String) → Except String (Option (List String))
  | [], loc => .ok loc
  | (_, rgx) :: rest, loc =>
      if rmatch rgx file then
        match tryRename dest loc with
        | .error e => .error e
        | .ok loc' => applyPatterns rmatch file dest rest loc'
      else applyPatterns rmatch file dest rest loc

/-- Subfolder loop of `move_files` (`full_local_script.py` lines 54-60):
for each subfolder key other than `"files"` (the test
`subfolder in folder_structure[folder]` is trivially true), the
subfolder node's `["files"]` mapping is accessed unconditionally — a
node without one raises `KeyError`. -/
def applySubs (rmatch : String → String → Bool) (file folder : String) :
    List (String × SubNode) → Option (List String) → Except String (Option (List String))
  | [], loc => .ok loc
  | (sub, snode) :: rest, loc =>
      if sub = "files" then applySubs rmatch file folder rest loc
      else
        match snode.files with
        | none => .error "KeyError"
        | some pats =>
            match applyPatterns rmatch file [folder, sub] pats loc with
            | .error e => .error e
            | .ok loc' => applySubs rmatch file folder rest loc'

/-- Folder loop of `move_files` (`full_local_script.py` lines 48-60):
for each top-level key other than `"files"`, first the node's own
patterns, then its subfolders. -/
def routeFolders (rmatch : String → String → Bool) (file : String) :
    RSpec → Option (List String) → Except String (Option (List String))
  | [], loc => .ok loc
  | (folder, node) :: rest, loc =>
      if folder = "files" then routeFolders rmatch file rest loc
      else
        let step :=
          match node.files with
          | none => Except.ok loc
          | some pats => applyPatterns rmatch file [folder] pats loc
        match step with
        | .error e => .error e
        | .ok loc1 =>
            match applySubs rmatch file folder node.subs loc1 with
            | .error e => .error e
            | .ok loc2 => routeFolders rmatch file rest loc2

/-- Final location of one file of the working set after the folder loop
of `move_files`: `none` means it still sits, untouched, in the working
directory; `some p` means it was moved to path `p`. -/
def route_file (rmatch : String → String → Bool) (spec : RSpec) (file : String) :
    Except String (Option (List String)) :=
  routeFolders rmatch file spec none

/-- `move_files` (`full_local_script.py` lines 41-60) over the
`os.listdir()` snapshot: each listed name is routed in turn; the first
exception aborts the whole run. -/
def move_files (rmatch : String → String → Bool) (spec : RSpec) :
    List String → Except String (List (String × Option (List String)))
  | [] => .ok []
  | f :: rest =>
      match route_file rmatch spec f with
      | .error e => .error e
      | .ok loc =>
          match move_files rmatch spec rest with
          | .error e => .error e
          | .ok rest' => .ok ((f, loc) :: rest')

/-- No pattern of an optional `"files"` mapping matches the file's name. -/
def patsNoMatch (rmatch : String → String → Bool) (file : String) :
    Option (List (String × String)) → Bool
  | none => true
  | some pats => pats.all (fun p => !(rmatch p.2 file))

/-- Every subfolder node reachable by `move_files` carries a `"files"`
mapping (otherwise the run dies with `KeyError` on every file). -/
def specWf (spec : RSpec) : Bool :=
  spec.all (fun fn =>
    fn.1 == "files" || fn.2.subs.all (fun sn => sn.1 == "files" || sn.2.files.isSome))

/-- No pattern anywhere in the specification matches the file's name. -/
def specNoMatch (rmatch : String → String → Bool) (spec : RSpec) (file : String) : Bool :=
  spec.all (fun fn =>
    patsNoMatch rmatch file fn.2.files &&
      fn.2.subs.all (fun sn => patsNoMatch rmatch file sn.2.files))

/-- Python `os.environ.get(name, dflt)` over the environment, taken as an
association list in the interpreter's iteration order. -/
def envGetD (env : List (String × String)) (name dflt : String) : String :=
  ((env.lookup name).getD dflt)

/-- Split a character list at its first occurrence of `c`:
`none` when `c` does not occur. -/
def splitAtFirst (c : Char) : List Char → Option (List Char × List Char)
  | [] => none
  | x :: rest =>
      if x = c then some ([], rest)
      else (splitAtFirst c rest).map (fun p => (x :: p.1, p.2))

/-- Python `s.split("_")` (no maxsplit) on a character list; the empty
string yields `[""]`. -/
def pySplitAll (c : Char) : List Char → List (List Char)
  | [] => [[]]
  | x :: rest =>
      if x = c then [] :: pySplitAll c rest
      else
        match pySplitAll c rest with
        | [] => [[x]]
        | p :: ps => (x :: p) :: ps

/-- Python `x.capitalize() or "_"` from `_get_repo_name`: the empty
segment becomes `"_"`, otherwise the first character is upper-cased and
the rest lower-cased. -/
def capOrUnderscore : List Char → List Char
  | [] => ['_']
  | c :: rest => c.toUpper :: rest.map Char.toLower

/-- `_get_repo_name` (`full_final_script.py` lines 85-92):
`env_var_name.split("_", 2)[2]` — the part after the first two
underscores; fewer than two underscores raises `IndexError` — then each
underscore-separated segment of that part is capitalized, the segments
are joined, and the first character is lower-cased. -/
def get_repo_name (envVarName : String) : Except String String :=
  match splitAtFirst '_' envVarName.toList with
  | none => .error "IndexError"
  | some p0 =>
      match splitAtFirst '_' p0.2 with
      | none => .error "IndexError"
      | some p1 =>
          match ((pySplitAll '_' p1.2).map capOrUnderscore).flatten with
          | [] => .error "IndexError"
          | ch :: rest => .ok (String.mk (ch.toLower :: rest))

/-- The value `dateutil.parser.parse(s).astimezone()` observed through
the fields `_get_timestamp_from_env` reads: the local ISO string and the
six calendar/time components.  The parser itself is third-party; it is
an oracle parameter of the embedding, with the documented behaviour
(raising on the empty string and on unparsable input) supplied as a
hypothesis where needed. -/
structure PyDateTime where
  isoLocal : String
  year : Int
  month : Int
  day : Int
  hour : Int
  minute : Int
  second : Int
deriving DecidableEq, Repr

/-- `_get_timestamp_from_env` (`full_final_script.py` lines 67-83):
parse `os.environ.get(env_var_name, "")` and return the ISO string plus
the six components; a parser exception propagates. -/
def get_timestamp_from_env (parseTs : String → Except String PyDateTime)
    (env : List (String × String)) (envVarName : String) :
    Except String (String × Int × Int × Int × Int × Int × Int) :=
  match parseTs (envGetD env envVarName "") with
  | .error e => .error e
  | .ok t => .ok (t.isoLocal, t.year, t.month, t.day, t.hour, t.minute, t.second)

/-- A `buildInfo.json` document with the fields of
`BUILD_INFO_TEMPLATE` (`full_final_script.py` lines 20-37).  Repository
records are opaque JSON of type `J`.  `buildId` is typed as the string
the code unconditionally assigns from the environment (the template's
numeric `0` is never observable in a generated document). -/
structure BuildInfo (J : Type) where
  buildNode : String
  buildId : String
  buildTimestamp : String
  buildYear : Int
  buildMonth : Int
  buildDay : Int
  buildHour : Int
  buildMinute : Int
  buildSecond : Int
  versionIar : String
  versionPython : String
  versionJlink : String
  vcsType : String
  repositories : List (String × J)

/-- `BUILD_INFO_TEMPLATE` of `full_final_script.py`. -/
def buildInfoTemplate {J : Type} : BuildInfo J :=
  { buildNode := ""
    buildId := ""
    buildTimestamp := ""
    buildYear := 0
    buildMonth := 0
    buildDay := 0
    buildHour := 0
    buildMinute := 0
    buildSecond := 0
    versionIar := ""
    versionPython := ""
    versionJlink := ""
    vcsType := "git"
    repositories := [] }

/-- Repository-collection loop of `generate_build_info_file`
(`full_final_script.py` lines 131-138): every environment variable whose
name starts with `GIT_INFO_` contributes the entry
`repositories[_get_repo_name(key)] = json.loads(value)`; a name or
value failure propagates.  `jloads` is the oracle for `json.loads`. -/
def collectRepos {J : Type} (jloads : String → Except String J) :
    List (String × String) → List (String × J) → Except String (List (String × J))
  | [], acc => .ok acc
  | (k, v) :: rest, acc =>
      if pyStartsWith k "GIT_INFO_" then
        match get_repo_name k with
        | .error e => .error e
        | .ok name =>
            match jloads v with
            | .error e => .error e
            | .ok info => collectRepos jloads rest (dinsert acc name info)
      else collectRepos jloads rest acc

/-- `generate_build_info_file` (`full_final_script.py` lines 109-140):
load or seed the document, fill the provenance fields from the
environment, parse the timestamp (an exception there propagates before
anything is saved), rebuild `repositories` from scratch, save.  In the
source `buildNode`/`buildId` are assigned before the timestamp parse;
since a parse failure aborts before the save, the observable outcome is
the same with all field updates gathered in the success branch. -/
def generate_build_info_file {J : Type} (parseTs : String → Except String PyDateTime)
    (jloads : String → Except String J) (env : List (String × String))
    (existing : Option (BuildInfo J)) : Except String (BuildInfo J) :=
  let bi := existing.getD buildInfoTemplate
  match get_timestamp_from_env parseTs env "BUILD_TIMESTAMP" with
  | .error e => .error e
  | .ok ts =>
      match collectRepos jloads env [] with
      | .error e => .error e
      | .ok repos =>
          .ok { bi with
                  buildNode := envGetD env "NODE_NAME" ""
                  buildId := envGetD env "BUILD_ID" ""
                  buildTimestamp := ts.1
                  buildYear := ts.2.1
                  buildMonth := ts.2.2.1
                  buildDay := ts.2.2.2.1
                  buildHour := ts.2.2.2.2.1
                  buildMinute := ts.2.2.2.2.2.1
                  buildSecond := ts.2.2.2.2.2.2
                  versionIar := envGetD env "IAR_VERSION" ""
                  versionPython := envGetD env "PYTHON_VERSION" ""
                  versionJlink := envGetD env "JLINK_VERSION" ""
                  repositories := repos }

/-- Key lookup of `update_meta_file_keys` (`full_local_script.py`
lines 163-170): the first logical key of the regex mapping, in iteration
order, one of whose patterns matches the old key; the old key itself
when none matches. -/
def canonKey (rmatch : String → String → Bool)
    (regexMappings : List (String × List String)) (oldKey : String) : String :=
  match regexMappings.find? (fun kv => kv.2.any (fun p => rmatch p oldKey)) with
  | some kv => kv.1
  | none => oldKey

/-- Rewrite of one manifest's `files` mapping by `update_meta_file_keys`
(`full_local_script.py` lines 160-173): a fresh dict is filled with
`updated_files[updated_key] = value` in the original entry order. -/
def update_files_keys (rmatch : String → String → Bool)
    (regexMappings : List (String × List String))
    (files : List (String × String)) : List (String × String) :=
  files.foldl (fun acc kv => dinsert acc (canonKey rmatch regexMappings kv.1) kv.2) []

/-- `update_meta_file_keys` applied to one `meta.json` document of the
walked tree (the pass runs this on every manifest; the guard
`"files" in meta_data` is always true for the modelled schema). -/
def update_meta_file_keys_one (rmatch : String → String → Bool)
    (regexMappings : List (String × List String)) (meta : MetaJson) : MetaJson :=
  { meta with files := update_files_keys rmatch regexMappings meta.files }

/-- The `meta.json` content of a directory node, when the document exists. -/
def treeManifest : FsTree → Option MetaJson
  | .node _ _ m _ => m

/-- Routing specification of the spec's create-folders scenario: one
top-level folder `a` with one subfolder `b`. -/
def exSpecC2 : RSpec :=
  [("a", { files := none, subs := [("b", { files := none })] })]

/-- Routing specification of the spec's router-determinism scenario:
`a` routes names starting with `x`, `b` routes names starting with `y`. -/
def exSpecC4 : RSpec :=
  [("a", { files := some [("k1", "^x.*")], subs := [] }),
   ("b", { files := some [("k2", "^y.*")], subs := [] })]

/-- Routing specification where the patterns of `a` and `b` both match
names starting with `x`. -/
def exSpecDup : RSpec :=
  [("a", { files := some [("k1", "^x.*")], subs := [] }),
   ("b", { files := some [("k2", "^x.*")], subs := [] })]

theorem dinsert_idem {α : Type} (l : List (String × α)) (k : String) (v : α) :
    dinsert (dinsert l k v) k v = dinsert l k v := by
  induction l with
  | nil => simp [dinsert]
  | cons hd t ih =>
      obtain ⟨k', v'⟩ := hd
      by_cases hk : k' = k
      · simp [dinsert, hk]
      · simp [dinsert, hk, ih]

theorem dinsert_fresh {α : Type} (l : List (String × α)) (k : String) (v : α)
    (h : k ∉ l.map Prod.fst) : dinsert l k v = l ++ [(k, v)] := by
  induction l with
  | nil => simp [dinsert]
  | cons hd t ih =>
      obtain ⟨k', v'⟩ := hd
      simp only [List.map_cons, List.mem_cons] at h
      push_neg at h
      simp [dinsert, Ne.symm h.1, ih h.2]

theorem mem_fst_dinsert_self {α : Type} (l : List (String × α)) (k : String) (v : α) :
    k ∈ (dinsert l k v).map Prod.fst := by
  induction l with
  | nil => simp [dinsert]
  | cons hd t ih =>
      obtain ⟨k', v'⟩ := hd
      by_cases hk : k' = k
      · simp [dinsert, hk]
      · simp [dinsert, hk]
        right
        simpa using ih

theorem mem_fst_dinsert_mono {α : Type} (l : List (String × α)) (k : String) (v : α)
    (x : String) (h : x ∈ l.map Prod.fst) : x ∈ (dinsert l k v).map Prod.fst := by
  induction l with
  | nil => simp at h
  | cons hd t ih =>
      obtain ⟨k', v'⟩ := hd
      by_cases hk : k' = k
      · simpa [dinsert, hk] using h
      · simp only [List.map_cons, List.mem_cons] at h
        rcases h with h | h
        · simp [dinsert, hk, h]
        · simp [dinsert, hk]
          right
          simpa using ih h

theorem scanVersion_eq_lastVer (fs : List String) (v0 : Option VersionInfo) :
    scanVersion fs v0 = match lastVer fs with | some v => some v | none => v0 := by
  induction fs generalizing v0 with
  | nil => rfl
  | cons f rest ih =>
      cases hl : lastVer rest <;> cases he : extractVersion f <;>
        simp [scanVersion, lastVer, ih, hl, he]

theorem scanVersion_idem (fs : List String) (v0 : Option VersionInfo) :
    scanVersion fs (scanVersion fs v0) = scanVersion fs v0 := by
  simp only [scanVersion_eq_lastVer]
  cases lastVer fs <;> simp

theorem metaFilesAllDir_idem (n : String) (fs : List String) (m : Option MetaJson)
    (cns : List String) :
    metaFilesAllDir n fs (some (metaFilesAllDir n fs m cns)) cns =
      metaFilesAllDir n fs m cns := by
  by_cases hbi : "buildInfo.json" ∈ fs <;>
    simp [metaFilesAllDir, hbi, dinsert_idem, scanVersion_idem]

theorem treeName_walkTree (t : FsTree) : treeName (walkTree t) = treeName t := by
  cases t
  simp [walkTree, treeName]

theorem forestNames_walkForest : ∀ f : FsForest, forestNames (walkForest f) = forestNames f
  | .nil => rfl
  | .cons t ts => by
      simp [walkForest, forestNames, treeName_walkTree t, forestNames_walkForest ts]

mutual
theorem walkTree_idem : ∀ t : FsTree, walkTree (walkTree t) = walkTree t
  | .node n fs m cs => by
      simp [walkTree, forestNames_walkForest, walkForest_idem cs, metaFilesAllDir_idem]
theorem walkForest_idem : ∀ f : FsForest, walkForest (walkForest f) = walkForest f
  | .nil => rfl
  | .cons t ts => by
      simp [walkForest, walkTree_idem t, walkForest_idem ts]
end

theorem ensureBuildInfo_idem (fs : List String) :
    ensureBuildInfo (ensureBuildInfo fs) = ensureBuildInfo fs := by
  by_cases h : "buildInfo.json" ∈ fs <;> simp [ensureBuildInfo, h]

/-- C5: running the Mode B full walk (`create_meta_files_all`) twice on
a tree that does not change between runs produces, on the second run,
manifests identical to those written by the first run, with the fixed
version-scan ordering built into the modelled directory listings.  The
result trees are equal as values, so every directory's manifest document
— and hence its serialized bytes, `json.dump` being a function of the
document with its modelled key order — coincides between the runs. -/
theorem create_meta_files_all_idem (t : FsTree) :
    create_meta_files_all (create_meta_files_all t) = create_meta_files_all t := by
  cases t with
  | node n fs m cs =>
      simp [create_meta_files_all, walkTree, ensureBuildInfo_idem,
        forestNames_walkForest, walkForest_idem, metaFilesAllDir_idem]

/-- C6: a non-empty `selfDirName` is never changed, neither by
`update_meta_json` (whose guard skips the assignment when the loaded
value is truthy) nor by the Mode B walk's per-directory step (which
reassigns `selfDirName` only when the `meta.json` document did not yet
exist — and a non-empty `selfDirName` lives inside an existing
document). -/
theorem selfDirName_immutable (m : MetaJson) (d k v n : String) (fs : List String)
    (cns : List String) (h : m.selfDirName ≠ "") :
    (update_meta_json (some m) d k v).selfDirName = m.selfDirName ∧
      (metaFilesAllDir n fs (some m) cns).selfDirName = m.selfDirName := by
  constructor
  · simp [update_meta_json, h]
  · by_cases hbi : "buildInfo.json" ∈ fs <;> simp [metaFilesAllDir, hbi]

/-- Witness for C6 at a concrete manifest with `selfDirName = "dir1"`. -/
theorem selfDirName_immutable_w :
    (update_meta_json (some { metaTemplate with selfDirName := "dir1" }) "d2" "key"
        "val").selfDirName = ({ metaTemplate with selfDirName := "dir1" } : MetaJson).selfDirName ∧
      (metaFilesAllDir "d3" ["f.txt"] (some { metaTemplate with selfDirName := "dir1" })
        ["c"]).selfDirName = ({ metaTemplate with selfDirName := "dir1" } : MetaJson).selfDirName :=
  selfDirName_immutable { metaTemplate with selfDirName := "dir1" } "d2" "key" "val" "d3"
    ["f.txt"] ["c"] (by decide)

/-- C1 (amended): in the Mode B walk, `versionInfo` is derived from
exactly one matching filename, but it is the LAST match in
directory-scan order that wins — the loop has no `break`, so each later
matching filename overwrites the record of the earlier one; when no
filename matches, the previously loaded value is kept.  The second
conjunct ties the per-directory step to `create_meta_files_all` at the
root. -/
theorem metaFilesAllDir_versionInfo :
    (∀ (name : String) (files : List String) (manifest : Option MetaJson)
      (childNames : List String),
      (metaFilesAllDir name files manifest childNames).versionInfo =
        match lastVer files with
        | some v => some v
        | none => (manifest.getD metaTemplate).versionInfo) ∧
      ∀ (n : String) (fs : List String) (m : Option MetaJson) (cs : FsForest),
        treeManifest (create_meta_files_all (.node n fs m cs)) =
          some (metaFilesAllDir n (ensureBuildInfo fs) m (forestNames cs)) := by
  constructor
  · intro name files manifest childNames
    cases manifest <;> by_cases hbi : "buildInfo.json" ∈ files <;>
      simp [metaFilesAllDir, hbi, scanVersion_eq_lastVer, metaTemplate]
  · intro n fs m cs
    rfl

/-- Counterexample to C1 as stated: in a directory with the two
version-bearing files `a-1.2.3.4.bin` and `b-9.8.7.6.bin` (in scan
order), the walk saves the version record of the second file, while the
first-match-wins reading predicts the record of the first; the two
records differ. -/
theorem metaFilesAllDir_first_match_fails :
    (treeManifest (create_meta_files_all
          (FsTree.node "sub" ["a-1.2.3.4.bin", "b-9.8.7.6.bin"] none FsForest.nil))).map
        MetaJson.versionInfo = some (some ⟨"9.8.7.6", "9.8.7.6", 9, 8, 7, 6⟩) ∧
      extractVersion "a-1.2.3.4.bin" = some ⟨"1.2.3.4", "1.2.3.4", 1, 2, 3, 4⟩ ∧
      (⟨"9.8.7.6", "9.8.7.6", 9, 8, 7, 6⟩ : VersionInfo) ≠ ⟨"1.2.3.4", "1.2.3.4", 1, 2, 3, 4⟩ :=
  ⟨by decide, by decide, by decide⟩

theorem scanVersionHex_eq_find (files : List String) :
    scanVersionHex files =
      match files.find? (fun f => pyEndsWith f ".hex") with
      | some f => extractVersion f
      | none => none := by
  induction files with
  | nil => rfl
  | cons f rest ih =>
      by_cases h : pyEndsWith f ".hex" <;> simp [scanVersionHex, List.find?_cons, h, ih]

/-- C7 (amended): the full-rebuild variant `create_meta_json` always
resets `selfDirName`, `metaTargets` and the whole `files` mapping (one
entry `files[name] = name` per non-`meta.json` file), independently of
any pre-existing manifest content (first conjunct: the walk result does
not depend on the manifest argument); its version scan, however, skips
non-`.hex` files and stops at the FIRST `.hex` file in listing order,
whether or not that file matches the version pattern. -/
theorem createMetaJson_resets :
    (∀ (n : String) (fs : List String) (m m' : Option MetaJson) (cs : FsForest),
      cmjTree (.node n fs m cs) = cmjTree (.node n fs m' cs)) ∧
      ∀ (n : String) (fs : List String) (cns : List String),
        (createMetaJsonDir n fs cns).selfDirName = n ∧
          (createMetaJsonDir n fs cns).metaTargets =
            cns.map (fun d => { targetName := d, metaInformationFile := d ++ "/meta.json" }) ∧
          (createMetaJsonDir n fs cns).files =
            (fs.filter (fun f => f ≠ "meta.json")).map (fun f => (f, f)) ∧
          (createMetaJsonDir n fs cns).versionInfo =
            match fs.find? (fun f => pyEndsWith f ".hex") with
            | some f => extractVersion f
            | none => none := by
  constructor
  · intro n fs m m' cs
    rfl
  · intro n fs cns
    exact ⟨rfl, rfl, rfl, scanVersionHex_eq_find fs⟩

/-- Counterexample to C7 as stated: in a directory listing
`["readme.txt", "fw-1.2.3.4.hex"]`, the claim's reading (stop after the
first file, `.hex` or not) predicts an empty `versionInfo`, but the code
skips the non-`.hex` `readme.txt` and saves the version of the second
file. -/
theorem createMetaJson_not_first_file :
    (createMetaJsonDir "d" ["readme.txt", "fw-1.2.3.4.hex"] []).versionInfo =
        some ⟨"1.2.3.4", "1.2.3.4", 1, 2, 3, 4⟩ ∧
      (some (⟨"1.2.3.4", "1.2.3.4", 1, 2, 3, 4⟩ : VersionInfo)) ≠ (none : Option VersionInfo) :=
  ⟨by decide, by decide⟩

theorem mem_createSubs (folder : String) (subs : List (String × SubNode))
    (fs : List (List String)) (x : List String) (h : x ∈ fs) :
    x ∈ createSubs folder subs fs := by
  induction subs generalizing fs with
  | nil => simpa [createSubs] using h
  | cons hd rest ih =>
      obtain ⟨s, sn⟩ := hd
      by_cases h1 : s = "files"
      · simpa [createSubs, h1] using ih fs h
      · by_cases h2 : [folder, s] ∈ fs
        · simpa [createSubs, h1, h2] using ih fs h
        · simpa [createSubs, h1, h2] using ih (fs ++ [[folder, s]]) (by simp [h])

theorem mem_create_folders (spec : RSpec) (fs : List (List String)) (x : List String)
    (h : x ∈ fs) : x ∈ create_folders spec fs := by
  induction spec generalizing fs with
  | nil => simpa [create_folders] using h
  | cons hd rest ih =>
      obtain ⟨folder, node⟩ := hd
      by_cases h1 : folder = "files"
      · simpa [create_folders, h1] using ih fs h
      · by_cases h2 : [folder] ∈ fs
        · simpa [create_folders, h1, h2] using ih fs h
        · simpa [create_folders, h1, h2] using
            ih _ (mem_createSubs folder node.subs (fs ++ [[folder]]) x (by simp [h]))

theorem top_mem_create_folders (spec : RSpec) (fs : List (List String)) :
    ∀ fn ∈ spec, fn.1 ≠ "files" → [fn.1] ∈ create_folders spec fs := by
  induction spec generalizing fs with
  | nil => simp
  | cons hd rest ih =>
      obtain ⟨folder, node⟩ := hd
      intro fn hfn hne
      rcases List.mem_cons.mp hfn with heq | hmem
      · subst heq
        simp only at hne ⊢
        by_cases h2 : [folder] ∈ fs
        · simpa [create_folders, hne, h2] using mem_create_folders rest fs [folder] h2
        · simpa [create_folders, hne, h2] using
            mem_create_folders rest _ [folder]
              (mem_createSubs folder node.subs (fs ++ [[folder]]) [folder] (by simp))
      · by_cases h1 : folder = "files"
        · simpa [create_folders, h1] using ih fs fn hmem hne
        · by_cases h2 : [folder] ∈ fs
          · simpa [create_folders, h1, h2] using ih fs fn hmem hne
          · simpa [create_folders, h1, h2] using ih _ fn hmem hne

theorem create_folders_noop (spec : RSpec) (fs : List (List String))
    (h : ∀ fn ∈ spec, fn.1 ≠ "files" → [fn.1] ∈ fs) : create_folders spec fs = fs := by
  induction spec with
  | nil => rfl
  | cons hd rest ih =>
      obtain ⟨folder, node⟩ := hd
      by_cases h1 : folder = "files"
      · simp only [create_folders, h1, if_pos rfl]
        exact ih (fun fn hfn => h fn (by simp [hfn]))
      · have hm : [folder] ∈ fs := h (folder, node) (by simp) h1
        simp only [create_folders, if_neg h1, if_pos hm]
        exact ih (fun fn hfn => h fn (by simp [hfn]))

/-- C2 (amended): `createFolders` creates an absent top-level directory
and, in the same pass, its listed subfolders; but when the top-level
directory already exists the entire body is skipped, so its missing
subfolders are NOT created.  Re-running on existing directories is a
no-op (second application changes nothing). -/
theorem create_folders_behaviour :
    (∀ (spec : RSpec) (fs : List (List String)),
      create_folders spec (create_folders spec fs) = create_folders spec fs) ∧
      create_folders exSpecC2 [] = [["a"], ["a", "b"]] ∧
      create_folders exSpecC2 [["a"]] = [["a"]] := by
  refine ⟨fun spec fs => create_folders_noop spec (create_folders spec fs)
    (fun fn hfn hne => top_mem_create_folders spec fs fn hfn hne), by decide, by decide⟩

/-- Counterexample to C2 as stated: for the spec with folder `a` and
subfolder `b`, starting from a filesystem where `a` already exists,
`create_folders` leaves it unchanged — `a/b` is not created, against the
claim that nested subdirectories are created even when the top-level
directory already exists. -/
theorem create_folders_existing_skips_subdir :
    create_folders exSpecC2 [["a"]] = [["a"]] ∧
      ["a", "b"] ∉ ([["a"]] : List (List String)) :=
  ⟨by decide, by decide⟩

theorem applyPatterns_nomatch (rm : String → String → Bool) (file : String)
    (dest : List String) (pats : List (String × String)) (loc : Option (List String))
    (h : ∀ p ∈ pats, rm p.2 file = false) :
    applyPatterns rm file dest pats loc = .ok loc := by
  induction pats with
  | nil => rfl
  | cons hd rest ih =>
      obtain ⟨k, rgx⟩ := hd
      have hh : rm rgx file = false := h (k, rgx) (List.mem_cons_self _ _)
      have heq : applyPatterns rm file dest ((k, rgx) :: rest) loc
          = applyPatterns rm file dest rest loc := by
        simp [applyPatterns, hh]
      rw [heq]
      exact ih (fun p hp => h p (List.mem_cons_of_mem _ hp))

theorem applySubs_nomatch (rm : String → String → Bool) (file folder : String)
    (subs : List (String × SubNode)) (loc : Option (List String))
    (hwf : ∀ sn ∈ subs, sn.1 ≠ "files" → sn.2.files.isSome = true)
    (h : ∀ sn ∈ subs, ∀ pats, sn.2.files = some pats → ∀ p ∈ pats, rm p.2 file = false) :
    applySubs rm file folder subs loc = .ok loc := by
  induction subs with
  | nil => rfl
  | cons hd rest ih =>
      obtain ⟨s, sn⟩ := hd
      by_cases h1 : s = "files"
      · have heq : applySubs rm file folder ((s, sn) :: rest) loc
            = applySubs rm file folder rest loc := by
          simp [applySubs, h1]
        rw [heq]
        exact ih (fun x hx h2 => hwf x (List.mem_cons_of_mem _ hx) h2)
          (fun x hx => h x (List.mem_cons_of_mem _ hx))
      · have hsome := hwf (s, sn) (List.mem_cons_self _ _) h1
        obtain ⟨pats, hp⟩ := Option.isSome_iff_exists.mp hsome
        have hap := applyPatterns_nomatch rm file [folder, s] pats loc
          (h (s, sn) (List.mem_cons_self _ _) pats hp)
        have hp' : sn.files = some pats := hp
        have heq : applySubs rm file folder ((s, sn) :: rest) loc
            = applySubs rm file folder rest loc := by
          simp [applySubs, h1, hp', hap]
        rw [heq]
        exact ih (fun x hx h2 => hwf x (List.mem_cons_of_mem _ hx) h2)
          (fun x hx => h x (List.mem_cons_of_mem _ hx))

theorem routeFolders_nomatch (rm : String → String → Bool) (file : String) (spec : RSpec)
    (loc : Option (List String))
    (hwf : ∀ fn ∈ spec, fn.1 ≠ "files" → ∀ sn ∈ fn.2.subs, sn.1 ≠ "files" →
      sn.2.files.isSome = true)
    (h : ∀ fn ∈ spec,
      (∀ pats, fn.2.files = some pats → ∀ p ∈ pats, rm p.2 file = false) ∧
        ∀ sn ∈ fn.2.subs, ∀ pats, sn.2.files = some pats → ∀ p ∈ pats, rm p.2 file = false) :
    routeFolders rm file spec loc = .ok loc := by
  induction spec generalizing loc with
  | nil => rfl
  | cons hd rest ih =>
      obtain ⟨folder, node⟩ := hd
      by_cases h1 : folder = "files"
      · have heq : routeFolders rm file ((folder, node) :: rest) loc
            = routeFolders rm file rest loc := by
          simp [routeFolders, h1]
        rw [heq]
        exact ih loc (fun x hx => hwf x (List.mem_cons_of_mem _ hx))
          (fun x hx => h x (List.mem_cons_of_mem _ hx))
      · have hmain := (h (folder, node) (List.mem_cons_self _ _)).1
        have hsubs := (h (folder, node) (List.mem_cons_self _ _)).2
        have hstep :
            (match node.files with
              | none => Except.ok loc
              | some pats => applyPatterns rm file [folder] pats loc) =
              Except.ok loc := by
          cases hf : node.files with
          | none => rfl
          | some pats => exact applyPatterns_nomatch rm file [folder] pats loc (hmain pats hf)
        have has := applySubs_nomatch rm file folder node.subs loc
          (fun x hx h2 => hwf (folder, node) (List.mem_cons_self _ _) h1 x hx h2) hsubs
        have heq : routeFolders rm file ((folder, node) :: rest) loc
            = routeFolders rm file rest loc := by
          simp [routeFolders, h1, hstep, has]
        rw [heq]
        exact ih loc (fun x hx => hwf x (List.mem_cons_of_mem _ hx))
          (fun x hx => h x (List.mem_cons_of_mem _ hx))

theorem patsNoMatch_spec (rm : String → String → Bool) (file : String)
    (o : Option (List (String × String))) (h : patsNoMatch rm file o = true) :
    ∀ pats, o = some pats → ∀ p ∈ pats, rm p.2 file = false := by
  intro pats hp p hpm
  subst hp
  have h' : pats.all (fun q => !(rm q.2 file)) = true := h
  have := List.all_eq_true.mp h' p hpm
  simpa using this

theorem specWf_spec (spec : RSpec) (h : specWf spec = true) :
    ∀ fn ∈ spec, fn.1 ≠ "files" → ∀ sn ∈ fn.2.subs, sn.1 ≠ "files" →
      sn.2.files.isSome = true := by
  intro fn hfn h1 sn hsn h2
  have hfn' := List.all_eq_true.mp h fn hfn
  rcases Bool.or_eq_true _ _ |>.mp hfn' with hcon | hall
  · exact absurd (by simpa using hcon) h1
  · have hsn' := List.all_eq_true.mp hall sn hsn
    rcases Bool.or_eq_true _ _ |>.mp hsn' with hcon | hok
    · exact absurd (by simpa using hcon) h2
    · exact hok

theorem specNoMatch_spec (rm : String → String → Bool) (spec : RSpec) (file : String)
    (h : specNoMatch rm spec file = true) :
    ∀ fn ∈ spec,
      (∀ pats, fn.2.files = some pats → ∀ p ∈ pats, rm p.2 file = false) ∧
        ∀ sn ∈ fn.2.subs, ∀ pats, sn.2.files = some pats → ∀ p ∈ pats, rm p.2 file = false := by
  intro fn hfn
  have hfn' := List.all_eq_true.mp h fn hfn
  rcases Bool.and_eq_true _ _ |>.mp hfn' with ⟨hmain, hsubs⟩
  refine ⟨patsNoMatch_spec rm file fn.2.files hmain, ?_⟩
  intro sn hsn
  exact patsNoMatch_spec rm file sn.2.files (List.all_eq_true.mp hsubs sn hsn)

/-- C4 (amended): `moveFiles` routes by the spec's patterns, but there
is no `break` after a match, so the first-match-wins reading holds only
when at most one pattern matches a file: a file matching no pattern is
left untouched in the working directory (first conjunct, for
specifications whose subfolder nodes all carry a `"files"` mapping); the
spec's concrete routing example behaves as stated (second conjunct); a
file whose name matches patterns of two folders is first moved and then
renamed again from its stale original path, raising
`FileNotFoundError` (third conjunct), rather than the later match being
ignored. -/
theorem move_files_behaviour :
    (∀ (rm : String → String → Bool) (spec : RSpec) (file : String),
      specWf spec = true → specNoMatch rm spec file = true →
        route_file rm spec file = .ok none) ∧
      move_files pyMatch exSpecC4 ["x1.txt", "y1.txt", "z1.txt"] =
        .ok [("x1.txt", some ["a"]), ("y1.txt", some ["b"]), ("z1.txt", none)] ∧
      route_file pyMatch exSpecDup "x1.txt" = .error "FileNotFoundError" := by
  refine ⟨fun rm spec file hwf h => routeFolders_nomatch rm file spec none
    (specWf_spec spec hwf) (specNoMatch_spec rm spec file h), by rfl, by rfl⟩

/-- Witness for C4's general no-match conjunct at a concrete file that
matches neither `^x.*` nor `^y.*`. -/
theorem move_files_behaviour_w :
    route_file pyMatch exSpecC4 "other.bin" = .ok none :=
  move_files_behaviour.1 pyMatch exSpecC4 "other.bin" (by decide) (by decide)

/-- Counterexample to C4 as stated: with patterns of both `a` and `b`
matching `x1.txt`, the run fails with `FileNotFoundError` instead of
leaving the file in the first matching folder `a` with the later match
ignored. -/
theorem move_files_double_match_error :
    route_file pyMatch exSpecDup "x1.txt" = .error "FileNotFoundError" ∧
      (Except.error "FileNotFoundError" : Except String (Option (List String))) ≠
        .ok (some ["a"]) :=
  ⟨by rfl, by simp⟩

theorem collectRepos_mono {J : Type} (jloads : String → Except String J)
    (env : List (String × String)) (acc repos : List (String × J))
    (h : collectRepos jloads env acc = .ok repos) (x : String)
    (hx : x ∈ acc.map Prod.fst) : x ∈ repos.map Prod.fst := by
  induction env generalizing acc with
  | nil =>
      simp only [collectRepos, Except.ok.injEq] at h
      subst h
      exact hx
  | cons hd rest ih =>
      obtain ⟨k, v⟩ := hd
      by_cases hs : pyStartsWith k "GIT_INFO_" = true
      · cases hn : get_repo_name k with
        | error e =>
            rw [show collectRepos jloads ((k, v) :: rest) acc = .error e by
              simp [collectRepos, hs, hn]] at h
            exact absurd h (by simp)
        | ok name =>
            cases hj : jloads v with
            | error e =>
                rw [show collectRepos jloads ((k, v) :: rest) acc = .error e by
                  simp [collectRepos, hs, hn, hj]] at h
                exact absurd h (by simp)
            | ok info =>
                rw [show collectRepos jloads ((k, v) :: rest) acc
                    = collectRepos jloads rest (dinsert acc name info) by
                  simp [collectRepos, hs, hn, hj]] at h
                exact ih (dinsert acc name info) h
                  (mem_fst_dinsert_mono acc name info x hx)
      · rw [show collectRepos jloads ((k, v) :: rest) acc = collectRepos jloads rest acc by
          simp [collectRepos, hs]] at h
        exact ih acc h hx

theorem collectRepos_collects {J : Type} (jloads : String → Except String J)
    (env : List (String × String)) (acc repos : List (String × J)) (k v n : String)
    (h : collectRepos jloads env acc = .ok repos) (hmem : (k, v) ∈ env)
    (hpre : pyStartsWith k "GIT_INFO_" = true) (hname : get_repo_name k = .ok n) :
    n ∈ repos.map Prod.fst := by
  induction env generalizing acc with
  | nil => simp at hmem
  | cons hd rest ih =>
      obtain ⟨k', v'⟩ := hd
      rcases List.mem_cons.mp hmem with heq | hmem'
      · injection heq with hk hv
        subst hk
        subst hv
        cases hj : jloads v with
        | error e =>
            rw [show collectRepos jloads ((k, v) :: rest) acc = .error e by
              simp [collectRepos, hpre, hname, hj]] at h
            exact absurd h (by simp)
        | ok info =>
            rw [show collectRepos jloads ((k, v) :: rest) acc
                = collectRepos jloads rest (dinsert acc n info) by
              simp [collectRepos, hpre, hname, hj]] at h
            exact collectRepos_mono jloads rest (dinsert acc n info) repos h n
              (mem_fst_dinsert_self acc n info)
      · by_cases hs : pyStartsWith k' "GIT_INFO_" = true
        · cases hn : get_repo_name k' with
          | error e =>
              rw [show collectRepos jloads ((k', v') :: rest) acc = .error e by
                simp [collectRepos, hs, hn]] at h
              exact absurd h (by simp)
          | ok name' =>
              cases hj : jloads v' with
              | error e =>
                  rw [show collectRepos jloads ((k', v') :: rest) acc = .error e by
                    simp [collectRepos, hs, hn, hj]] at h
                  exact absurd h (by simp)
              | ok info =>
                  rw [show collectRepos jloads ((k', v') :: rest) acc
                      = collectRepos jloads rest (dinsert acc name' info) by
                    simp [collectRepos, hs, hn, hj]] at h
                  exact ih (dinsert acc name' info) h hmem'
        · rw [show collectRepos jloads ((k', v') :: rest) acc = collectRepos jloads rest acc by
            simp [collectRepos, hs]] at h
          exact ih acc h hmem'

/-- C3 (amended): `_get_repo_name` splits the variable name at its first
two underscores — it does not drop a third, "unused" segment — and
camel-cases the entire remainder, so `GIT_INFO_unused_my_repo` yields
the key `unusedMyRepo` (not `myRepo`); and every environment variable
whose name starts with `GIT_INFO_` does contribute its derived key to
the rebuilt `repositories` mapping. -/
theorem repo_name_derivation :
    get_repo_name "GIT_INFO_unused_my_repo" = .ok "unusedMyRepo" ∧
      ∀ (J : Type) (jloads : String → Except String J) (env : List (String × String))
        (repos : List (String × J)) (k v n : String),
        collectRepos jloads env [] = .ok repos → (k, v) ∈ env →
          pyStartsWith k "GIT_INFO_" = true → get_repo_name k = .ok n →
            n ∈ repos.map Prod.fst := by
  refine ⟨by rfl, ?_⟩
  intro J jloads env repos k v n h hmem hpre hname
  exact collectRepos_collects jloads env [] repos k v n h hmem hpre hname

/-- Witness for C3's repository-collection conjunct at a one-variable
environment. -/
theorem repo_name_derivation_w :
    "unusedMyRepo" ∈ ([("unusedMyRepo", ())] : List (String × Unit)).map Prod.fst :=
  repo_name_derivation.2 Unit (fun _ => .ok ()) [("GIT_INFO_unused_my_repo", "null")]
    [("unusedMyRepo", ())] "GIT_INFO_unused_my_repo" "null" "unusedMyRepo" (by rfl)
    (by simp) (by rfl) (by rfl)

/-- Counterexample to C3 as stated: the variable name
`GIT_INFO_unused_my_repo` derives the repositories key `unusedMyRepo`,
not the claimed `myRepo` — the second name segment is not discarded. -/
theorem repo_name_keeps_marker :
    get_repo_name "GIT_INFO_unused_my_repo" = .ok "unusedMyRepo" ∧
      (Except.ok "unusedMyRepo" : Except String String) ≠ .ok "myRepo" :=
  ⟨by rfl, by simp⟩

/-- C8: build-info synthesis fails — the parser exception propagates to
the caller before any document is produced — whenever parsing the
`BUILD_TIMESTAMP` value fails.  With the documented `dateutil`
behaviour of raising on the empty string, the hypothesis covers both an
absent variable (`os.environ.get` then yields `""`) and an unparsable
value; no timestamp field is ever defaulted or zero-filled, since no
document is returned at all. -/
theorem build_info_timestamp_failure {J : Type} (parseTs : String → Except String PyDateTime)
    (jloads : String → Except String J) (env : List (String × String))
    (existing : Option (BuildInfo J)) (e : String)
    (h : parseTs (envGetD env "BUILD_TIMESTAMP" "") = .error e) :
    generate_build_info_file parseTs jloads env existing = .error e := by
  simp [generate_build_info_file, get_timestamp_from_env, h]

/-- Witness for C8: an empty environment (absent `BUILD_TIMESTAMP`) with
a parser that raises on its input. -/
theorem build_info_timestamp_failure_w :
    generate_build_info_file (fun _ => .error "ParserError") (fun s => Except.ok s) [] none
      = Except.error "ParserError" :=
  build_info_timestamp_failure (fun _ => .error "ParserError") (fun s => Except.ok s) [] none
    "ParserError" (by rfl)

theorem canonKey_first (rm : String → String → Bool)
    (rmaps1 : List (String × List String)) (K : String) (ps : List String)
    (rmaps2 : List (String × List String)) (oldKey : String)
    (h1 : ∀ kv ∈ rmaps1, ∀ p ∈ kv.2, rm p oldKey = false)
    (h2 : ∃ p ∈ ps, rm p oldKey = true) :
    canonKey rm (rmaps1 ++ (K, ps) :: rmaps2) oldKey = K := by
  induction rmaps1 with
  | nil =>
      obtain ⟨p, hp, hrm⟩ := h2
      have hfind : ((K, ps) :: rmaps2).find? (fun kv => kv.2.any (fun q => rm q oldKey))
          = some (K, ps) :=
        List.find?_cons_of_pos _ (List.any_eq_true.mpr ⟨p, hp, hrm⟩)
      simp [canonKey, hfind]
  | cons hd rest ih =>
      have hanyf : (hd.2.any fun q => rm q oldKey) = false := by
        apply List.any_eq_false.mpr
        intro p hp
        simp [h1 hd (List.mem_cons_self _ _) p hp]
      have hstep : canonKey rm ((hd :: rest) ++ (K, ps) :: rmaps2) oldKey
          = canonKey rm (rest ++ (K, ps) :: rmaps2) oldKey := by
        unfold canonKey
        rw [List.cons_append, List.find?_cons_of_neg _ (by simp [hanyf])]
      rw [hstep]
      exact ih (fun kv hkv => h1 kv (List.mem_cons_of_mem _ hkv))

theorem canonKey_unmatched (rm : String → String → Bool)
    (rmaps : List (String × List String)) (oldKey : String)
    (h : ∀ kv ∈ rmaps, ∀ p ∈ kv.2, rm p oldKey = false) :
    canonKey rm rmaps oldKey = oldKey := by
  have hfind : rmaps.find? (fun kv => kv.2.any (fun q => rm q oldKey)) = none := by
    apply List.find?_eq_none.mpr
    intro kv hkv hcon
    obtain ⟨p, hp, hrm⟩ := List.any_eq_true.mp hcon
    exact absurd hrm (by simp [h kv hkv p hp])
  simp [canonKey, hfind]

theorem update_files_keys_aux (rm : String → String → Bool)
    (rmaps : List (String × List String)) :
    ∀ (files acc : List (String × String)),
      (∀ kv ∈ files, canonKey rm rmaps kv.1 = kv.1) →
      (files.map Prod.fst).Nodup →
      (∀ kv ∈ files, kv.1 ∉ acc.map Prod.fst) →
      files.foldl (fun acc kv => dinsert acc (canonKey rm rmaps kv.1) kv.2) acc = acc ++ files
  | [], acc, _, _, _ => by simp
  | (k, v) :: rest, acc, hc, hnd, hfresh => by
      have hck : canonKey rm rmaps k = k := hc (k, v) (List.mem_cons_self _ _)
      have hkacc : k ∉ acc.map Prod.fst := hfresh (k, v) (List.mem_cons_self _ _)
      have hnd2 := List.nodup_cons.mp (by simpa only [List.map_cons] using hnd)
      have hfresh' : ∀ kv ∈ rest, kv.1 ∉ (acc ++ [(k, v)]).map Prod.fst := by
        intro kv hkv
        simp only [List.map_append, List.mem_append]
        push_neg
        refine ⟨hfresh kv (List.mem_cons_of_mem _ hkv), ?_⟩
        simp only [List.map_cons, List.map_nil, List.mem_cons, List.not_mem_nil]
        intro hcon
        rcases hcon with hcon | hcon
        · exact hnd2.1 (hcon ▸ List.mem_map_of_mem Prod.fst hkv)
        · exact hcon
      have hrec := update_files_keys_aux rm rmaps rest (acc ++ [(k, v)])
        (fun kv hkv => hc kv (List.mem_cons_of_mem _ hkv)) hnd2.2 hfresh'
      simp only [List.foldl_cons, hck, dinsert_fresh acc k v hkacc, hrec]
      simp

theorem update_files_keys_unmatched (rm : String → String → Bool)
    (rmaps : List (String × List String)) (files : List (String × String))
    (hc : ∀ kv ∈ files, canonKey rm rmaps kv.1 = kv.1)
    (hnd : (files.map Prod.fst).Nodup) :
    update_files_keys rm rmaps files = files := by
  have := update_files_keys_aux rm rmaps files [] hc hnd (by simp)
  simpa [update_files_keys] using this

/-- C9: the key canonicalization pass replaces a manifest `files` key
with the first logical key of the regex mapping (in iteration order)
whose pattern list contains a pattern matching the old key via
prefix-anchored `re.match` (first conjunct); keys matched by no pattern
are left unchanged — for distinct keys the rebuilt dict equals the
original (second conjunct); and the concrete manifest entry
`x1.txt : x1.txt` with mapping `k1 : [^x.*]` rewrites to
`k1 : x1.txt` (third conjunct). -/
theorem update_meta_file_keys_canonicalizes :
    (∀ (rm : String → String → Bool) (rmaps1 : List (String × List String)) (K : String)
      (ps : List String) (rmaps2 : List (String × List String)) (oldKey : String),
      (∀ kv ∈ rmaps1, ∀ p ∈ kv.2, rm p oldKey = false) → (∃ p ∈ ps, rm p oldKey = true) →
        canonKey rm (rmaps1 ++ (K, ps) :: rmaps2) oldKey = K) ∧
      (∀ (rm : String → String → Bool) (rmaps : List (String × List String))
        (files : List (String × String)),
        (∀ kv ∈ files, ∀ kv' ∈ rmaps, ∀ p ∈ kv'.2, rm p kv.1 = false) →
          (files.map Prod.fst).Nodup → update_files_keys rm rmaps files = files) ∧
      update_meta_file_keys_one pyMatch [("k1", ["^x.*"])]
          { metaTemplate with files := [("x1.txt", "x1.txt")] } =
        { metaTemplate with files := [("k1", "x1.txt")] } := by
  refine ⟨canonKey_first, ?_, by decide⟩
  intro rm rmaps files hnm hnd
  exact update_files_keys_unmatched rm rmaps files
    (fun kv hkv => canonKey_unmatched rm rmaps kv.1 (hnm kv hkv)) hnd

/-- Witness for C9's first-match conjunct at the spec's concrete
mapping. -/
theorem update_meta_file_keys_canonicalizes_w :
    canonKey pyMatch ([] ++ ("k1", ["^x.*"]) :: []) "x1.txt" = "k1" :=
  update_meta_file_keys_canonicalizes.1 pyMatch [] "k1" ["^x.*"] [] "x1.txt" (by simp)
    ⟨"^x.*", by simp, by decide⟩

/-- C10: when two distinct old keys of the same `files` mapping
canonicalize to the same logical key, the rebuilt dict keeps a single
entry under that key, whose value is the later old key's value — the
pass drops the earlier entry and the mapping shrinks. -/
theorem update_files_keys_collision (rm : String → String → Bool)
    (rmaps : List (String × List String)) (k1 v1 k2 v2 K : String)
    (_hne : k1 ≠ k2) (h1 : canonKey rm rmaps k1 = K) (h2 : canonKey rm rmaps k2 = K) :
    update_files_keys rm rmaps [(k1, v1), (k2, v2)] = [(K, v2)] ∧
      (update_files_keys rm rmaps [(k1, v1), (k2, v2)]).length <
        ([(k1, v1), (k2, v2)] : List (String × String)).length := by
  have heq : update_files_keys rm rmaps [(k1, v1), (k2, v2)] = [(K, v2)] := by
    simp [update_files_keys, h1, h2, dinsert]
  exact ⟨heq, by simp [heq]⟩

/-- Witness for C10 at the concrete mapping where `x1.txt` and `x2.txt`
both canonicalize to `k1`. -/
theorem update_files_keys_collision_w :
    update_files_keys pyMatch [("k1", ["^x.*"])]
        [("x1.txt", "x1.txt"), ("x2.txt", "x2.txt")] = [("k1", "x2.txt")] ∧
      (update_files_keys pyMatch [("k1", ["^x.*"])]
          [("x1.txt", "x1.txt"), ("x2.txt", "x2.txt")]).length <
        ([("x1.txt", "x1.txt"), ("x2.txt", "x2.txt")] : List (String × String)).length :=
  update_files_keys_collision pyMatch [("k1", ["^x.*"])] "x1.txt" "x1.txt" "x2.txt"
    "x2.txt" "k1" (by decide) (by decide) (by decide)

end MetaRelease
